import Mathlib

/-!
Verification of the Local Backend Orchestrator (convex-vite-plugin).

This file shallowly embeds the parts of the TypeScript sources that the
checked properties are about: the admin-key generation pipeline
(`keys.ts`), the state-identity resolver, debounce, binary-cache and
health-check helpers (`utils.ts`), and the credential-selection, deploy
coalescing and stop logic of the plugin / `ConvexBackend` (`backend.ts`).

Machine integers are modelled as `Nat` with explicit reduction mod 2^32
where the code uses 32-bit words; byte strings are `List Nat` with each
element `< 256`; fallible operations return `Except`; I/O-dependent
inputs (the git branch, random bytes, the clock, directory listings,
HTTP responses) are passed in as explicit parameters; the external AEAD
cipher (`@noble/ciphers` AES-128-GCM-SIV) is an abstract function
parameter.  SHA-256 and HMAC-SHA-256 (Node `crypto` primitives used by
the code) are given a full executable reference implementation so that
concrete hash values can be checked.
-/

namespace ConvexOrchestrator

/-- Reduce a natural number to a 32-bit word, as JS `>>> 0` / Buffer word ops do. -/
def w32 (n : Nat) : Nat := n % 4294967296

/-- Big-endian byte encoding of `v` in exactly `n` bytes (`Buffer.writeUInt32BE` etc.). -/
def beBytes : Nat → Nat → List Nat
  | 0, _ => []
  | n + 1, v => beBytes n (v / 256) ++ [v % 256]

/-- Big-endian interpretation of a byte list as one machine word. -/
def wordBE (bs : List Nat) : Nat := bs.foldl (fun acc b => acc * 256 + b) 0

/-- Split a list into consecutive chunks of `n` elements (fuel-bounded helper). -/
def chunksGo (n : Nat) : Nat → List Nat → List (List Nat)
  | 0, _ => []
  | _, [] => []
  | fuel + 1, xs => xs.take n :: chunksGo n fuel (xs.drop n)

/-- Split a list into consecutive chunks of `n` elements. -/
def chunks (n : Nat) (xs : List Nat) : List (List Nat) := chunksGo n xs.length xs

/-- Bytes of an ASCII string (all strings the code hashes are ASCII, where
UTF-8 bytes and code points coincide). -/
def strBytes (s : String) : List Nat := s.data.map Char.toNat

/-- Lowercase hex digit for a value `< 16`, as Node `toString("hex")` emits. -/
def hexDigitChar (d : Nat) : Char := Char.ofNat (if d < 10 then 48 + d else 87 + d)

/-- Hex encoding of a byte list, as a character list. -/
def hexEncodeList (bs : List Nat) : List Char :=
  bs.foldr (fun b acc => hexDigitChar (b / 16) :: hexDigitChar (b % 16) :: acc) []

/-- Hex encoding of a byte list (`Buffer.toString("hex")`). -/
def hexEncode (bs : List Nat) : String := String.mk (hexEncodeList bs)

/-- Value of one hex digit character, upper or lower case. -/
def hexDigitVal (c : Char) : Option Nat :=
  if '0' ≤ c ∧ c ≤ '9' then some (c.toNat - 48)
  else if 'a' ≤ c ∧ c ≤ 'f' then some (c.toNat - 87)
  else if 'A' ≤ c ∧ c ≤ 'F' then some (c.toNat - 55)
  else none

/-- Hex decoding of a character list, Node `Buffer.from(s, "hex")` style:
bytes are parsed two digits at a time and parsing stops silently at the
first invalid or incomplete pair. -/
def hexDecodeList : List Char → List Nat
  | c1 :: c2 :: rest =>
    match hexDigitVal c1, hexDigitVal c2 with
    | some hi, some lo => (16 * hi + lo) :: hexDecodeList rest
    | _, _ => []
  | _ => []

/-- Hex decoding of a string (`Buffer.from(s, "hex")`). -/
def hexDecode (s : String) : List Nat := hexDecodeList s.data

/-! ## SHA-256 reference implementation -/

/-- Right rotation of a 32-bit word. -/
def rotr32 (x n : Nat) : Nat := w32 ((x >>> n) ||| (x <<< (32 - n)))

/-- SHA-256 small sigma 0. -/
def schedSig0 (x : Nat) : Nat := (rotr32 x 7) ^^^ (rotr32 x 18) ^^^ (x >>> 3)

/-- SHA-256 small sigma 1. -/
def schedSig1 (x : Nat) : Nat := (rotr32 x 17) ^^^ (rotr32 x 19) ^^^ (x >>> 10)

/-- SHA-256 big sigma 0. -/
def roundSig0 (x : Nat) : Nat := (rotr32 x 2) ^^^ (rotr32 x 13) ^^^ (rotr32 x 22)

/-- SHA-256 big sigma 1. -/
def roundSig1 (x : Nat) : Nat := (rotr32 x 6) ^^^ (rotr32 x 11) ^^^ (rotr32 x 25)

/-- SHA-256 choice function. -/
def sha256Ch (x y z : Nat) : Nat := (x &&& y) ^^^ ((x ^^^ 4294967295) &&& z)

/-- SHA-256 majority function. -/
def sha256Maj (x y z : Nat) : Nat := (x &&& y) ^^^ (x &&& z) ^^^ (y &&& z)

/-- The 64 SHA-256 round constants of FIPS 180-4, in decimal. -/
def sha256K : List Nat :=
  [1116352408, 1899447441, 3049323471, 3921009573, 961987163, 1508970993,
   2453635748, 2870763221, 3624381080, 310598401, 607225278, 1426881987,
   1925078388, 2162078206, 2614888103, 3248222580, 3835390401, 4022224774,
   264347078, 604807628, 770255983, 1249150122, 1555081692, 1996064986,
   2554220882, 2821834349, 2952996808, 3210313671, 3336571891, 3584528711,
   113926993, 338241895, 666307205, 773529912, 1294757372, 1396182291,
   1695183700, 1986661051, 2177026350, 2456956037, 2730485921, 2820302411,
   3259730800, 3345764771, 3516065817, 3600352804, 4094571909, 275423344,
   430227734, 506948616, 659060556, 883997877, 958139571, 1322822218,
   1537002063, 1747873779, 1955562222, 2024104815, 2227730452, 2361852424,
   2428436474, 2756734187, 3204031479, 3329325298]

/-- Working state of the SHA-256 compression function. -/
structure Sha256St where
  a : Nat
  b : Nat
  c : Nat
  d : Nat
  e : Nat
  f : Nat
  g : Nat
  h : Nat
deriving Repr, DecidableEq

/-- SHA-256 initial hash value. -/
def sha256Init : Sha256St :=
  ⟨1779033703, 3144134277, 1013904242, 2773480762,
   1359893119, 2600822924, 528734635, 1541459225⟩

/-- Extend the 16 message-schedule words of one block to 64. -/
def sha256Sched (w : List Nat) : List Nat :=
  (List.range 48).foldl
    (fun acc _ =>
      let n := acc.length
      let x := w32 (schedSig1 (acc.getD (n - 2) 0) + acc.getD (n - 7) 0 +
                    schedSig0 (acc.getD (n - 15) 0) + acc.getD (n - 16) 0)
      acc ++ [x]) w

/-- One SHA-256 round; `kw` is the round constant plus the schedule word. -/
def sha256Round (s : Sha256St) (kw : Nat) : Sha256St :=
  let t1 := w32 (s.h + roundSig1 s.e + sha256Ch s.e s.f s.g + kw)
  let t2 := w32 (roundSig0 s.a + sha256Maj s.a s.b s.c)
  ⟨w32 (t1 + t2), s.a, s.b, s.c, w32 (s.d + t1), s.e, s.f, s.g⟩

/-- Compress one 64-byte block into the running hash state. -/
def sha256Compress (st : Sha256St) (block : List Nat) : Sha256St :=
  let w := sha256Sched ((chunks 4 block).map wordBE)
  let kw := List.zipWith (fun k wi => k + wi) sha256K w
  let r := kw.foldl sha256Round st
  ⟨w32 (st.a + r.a), w32 (st.b + r.b), w32 (st.c + r.c), w32 (st.d + r.d),
   w32 (st.e + r.e), w32 (st.f + r.f), w32 (st.g + r.g), w32 (st.h + r.h)⟩

/-- SHA-256 message padding: 0x80, zeros to 56 mod 64, 8-byte big-endian bit length. -/
def sha256Pad (msg : List Nat) : List Nat :=
  let len := msg.length
  let zeros := (64 + 56 - ((len + 1) % 64)) % 64
  msg ++ [128] ++ List.replicate zeros 0 ++ beBytes 8 (len * 8)

/-- SHA-256 of a byte list, as its 32 digest bytes. -/
def sha256 (msg : List Nat) : List Nat :=
  let st := (chunks 64 (sha256Pad msg)).foldl sha256Compress sha256Init
  beBytes 4 st.a ++ beBytes 4 st.b ++ beBytes 4 st.c ++ beBytes 4 st.d ++
  beBytes 4 st.e ++ beBytes 4 st.f ++ beBytes 4 st.g ++ beBytes 4 st.h

/-- Lowercase hex digest of SHA-256 (`createHash("sha256").digest("hex")`). -/
def sha256hex (msg : List Nat) : String := hexEncode (sha256 msg)

/-- HMAC-SHA-256 (`crypto.createHmac("sha256", key)`): keys longer than the
64-byte block are hashed first, the key is zero-padded to 64 bytes, and the
digest is `SHA256(opad ++ SHA256(ipad ++ msg))`. -/
def hmacSha256 (key msg : List Nat) : List Nat :=
  let k0 := if 64 < key.length then sha256 key else key
  let kPad := k0 ++ List.replicate (64 - k0.length) 0
  let ipad := kPad.map (fun b => b ^^^ 0x36)
  let opad := kPad.map (fun b => b ^^^ 0x5c)
  sha256 (opad ++ sha256 (ipad ++ msg))

/-! ## keys.ts : admin-key generation -/

/-- KBKDF-CTR-HMAC-SHA256 from `keys.ts` (`kbkdfCtrHmac`): for each 1-indexed
counter `i` up to `ceil(outputLen / 32)`, one HMAC over the 4-byte
big-endian counter followed directly by the info label, the digests
concatenated and truncated to `outputLen`. -/
def kbkdfCtrHmac (secret : List Nat) (info : String) (outputLen : Nat) : List Nat :=
  let iterations := (outputLen + 31) / 32
  let chunks := (List.range iterations).map
    (fun i0 => hmacSha256 secret (beBytes 4 (i0 + 1) ++ strBytes info))
  (chunks.foldr (· ++ ·) []).take outputLen

/-- Modelled from the spec's words for the refinement comparison of C1
("for each 32-byte block `i` (1-indexed), compute
`HMAC-SHA256(secret, BE32(i) || info_label)`, concatenate blocks, truncate
to the requested output length", with no length or separator fields in the
HMAC input). -/
def specCtrHmacKdf (secret : List Nat) (infoLabel : String) (outputLen : Nat) : List Nat :=
  let numBlocks := (outputLen + 31) / 32
  (((List.range numBlocks).map
      (fun i0 => hmacSha256 secret (beBytes 4 (i0 + 1) ++ strBytes infoLabel))).foldr
    (· ++ ·) []).take outputLen

/-- Protobuf varint encoding from `keys.ts` (`encodeVarint`): little-endian
7-bit groups, continuation bit 0x80 on all but the last. -/
def encodeVarint (v : Nat) : List Nat :=
  if h : 127 < v then (v % 128 + 128) :: encodeVarint (v / 128)
  else [v]
decreasing_by exact Nat.div_lt_self (by omega) (by omega)

/-- Protobuf field tag from `keys.ts` (`encodeTag`). -/
def encodeTag (fieldNumber wireType : Nat) : List Nat :=
  encodeVarint ((fieldNumber <<< 3) ||| wireType)

/-- The `AdminKeyProto` payload from `keys.ts` (`encodeAdminKeyProto`):
field 2 `issued_s`, field 3 `member_id`, and field 5 `is_read_only`
only when true, all varints. -/
def encodeAdminKeyProto (issuedS memberId : Nat) (isReadOnly : Bool) : List Nat :=
  encodeTag 2 0 ++ encodeVarint issuedS ++
  encodeTag 3 0 ++ encodeVarint memberId ++
  (if isReadOnly then encodeTag 5 0 ++ encodeVarint 1 else [])

/-- The format version byte (`ADMIN_KEY_VERSION`). -/
def adminKeyVersion : Nat := 1

/-- The KDF info label (`ADMIN_KEY_PURPOSE`). -/
def adminKeyPurpose : String := "admin key"

/-- Operations `generateAdminKey` performs after its length guard; the trace
makes "fails before any key derivation or encryption" (C8) statable. -/
inductive AdminGenEv
  | derivedKey
  | encrypted
deriving Repr, DecidableEq

/-- An AEAD encryption function: key, nonce, associated data, plaintext to
ciphertext-with-tag.  It stands for the external `@noble/ciphers`
AES-128-GCM-SIV `gcmsiv(key, nonce, aad).encrypt(plaintext)`. -/
abbrev AeadEncrypt := List Nat → List Nat → List Nat → List Nat → List Nat

/-- The `generateAdminKey` function of `keys.ts`.  The random 12-byte nonce,
the issue time in seconds, and the external AEAD cipher are explicit
parameters.  Returns the token (or the length-guard error) together with
the trace of post-guard operations. -/
def generateAdminKey (encrypt : AeadEncrypt) (nonce : List Nat) (issuedS : Nat)
    (instanceSecret instanceName : String) (memberId : Nat) (isReadOnly : Bool) :
    Except String String × List AdminGenEv :=
  let secret := hexDecode instanceSecret
  if secret.length ≠ 32 then
    (Except.error ("Instance secret must be 32 bytes (64 hex chars), got " ++
      toString secret.length ++ " bytes"), [])
  else
    let aesKey := kbkdfCtrHmac secret adminKeyPurpose 16
    let plaintext := encodeAdminKeyProto issuedS memberId isReadOnly
    let aad := [adminKeyVersion]
    let ciphertext := encrypt aesKey nonce aad plaintext
    let encrypted := [adminKeyVersion] ++ nonce ++ ciphertext
    (Except.ok (instanceName ++ "|" ++ hexEncode encrypted),
     [AdminGenEv.derivedKey, AdminGenEv.encrypted])

/-- The `generateInstanceSecret` function of `keys.ts`; the 32 random bytes
from `crypto.randomBytes(32)` are the parameter. -/
def generateInstanceSecret (randomBytes : List Nat) : String := hexEncode randomBytes

/-- The `generateKeyPair` function of `keys.ts`: generates a secret and the
matching admin key (`memberId = 0`, `isReadOnly = false`). -/
def generateKeyPair (randomBytes : List Nat) (encrypt : AeadEncrypt) (nonce : List Nat)
    (issuedS : Nat) (instanceName : String) :
    String × (Except String String × List AdminGenEv) :=
  let instanceSecret := generateInstanceSecret randomBytes
  let adminKey := generateAdminKey encrypt nonce issuedS instanceSecret instanceName 0 false
  (instanceSecret, adminKey)

/-! ## utils.ts : state identity -/

/-- JS truthiness of an optional string (`undefined` and `""` are falsy). -/
def jsTruthyStr : Option String → Bool
  | none => false
  | some s => !(s == "")

/-- Character class kept by the sanitizer regex `[^a-zA-Z0-9-]`. -/
def stateIdAllowedChar (c : Char) : Bool :=
  ('a' ≤ c && c ≤ 'z') || ('A' ≤ c && c ≤ 'Z') || ('0' ≤ c && c ≤ '9') || c == '-'

/-- Replace every character outside `[a-zA-Z0-9-]` with a hyphen. -/
def sanitizeStateId (s : String) : String :=
  String.mk (s.data.map (fun c => if stateIdAllowedChar c then c else '-'))

/-- The digest input of `computeStateId`: branch, project dir and — when the
suffix is truthy — the suffix, joined by `:`. -/
def stateIdInput (gitBranch projectDir : String) (suffix : Option String) : String :=
  if jsTruthyStr suffix then gitBranch ++ ":" ++ projectDir ++ ":" ++ suffix.getD ""
  else gitBranch ++ ":" ++ projectDir

/-- The 16-hex-character truncated SHA-256 of the digest input. -/
def stateIdHash (gitBranch projectDir : String) (suffix : Option String) : String :=
  String.mk ((hexEncodeList (sha256 (strBytes (stateIdInput gitBranch projectDir suffix)))).take 16)

/-- The `computeStateId` function of `utils.ts`.  The git branch is a
parameter: the code reads it from `git rev-parse` and substitutes
`"unknown"` on any failure, which is outside the pure core. -/
def computeStateId (gitBranch projectDir : String) (suffix : Option String) : String :=
  let sanitizedBranch := sanitizeStateId gitBranch
  let sanitizedSuffix :=
    if jsTruthyStr suffix then "-" ++ sanitizeStateId (suffix.getD "") else ""
  sanitizedBranch ++ sanitizedSuffix ++ "-" ++ stateIdHash gitBranch projectDir suffix

/-! ## utils.ts : trailing-edge debounce

The `debounce` helper keeps one `timeoutId`; every call clears the pending
timer and schedules a new firing at `now + delay`.  The model processes the
call times in order; a pending timer whose due time has passed by the next
call has already fired and cannot be cancelled. -/

/-- State of the debounced closure: the pending timer's due time, and the
times at which the wrapped function has fired. -/
structure DebounceState where
  pending : Option Nat
  fires : List Nat
deriving Repr, DecidableEq

/-- Handle one call of the debounced function at time `t`: a pending timer
already due (`f ≤ t`) has fired; an undue one is cleared; a new timer is
scheduled for `t + delay`. -/
def debounceStep (delay : Nat) (s : DebounceState) (t : Nat) : DebounceState :=
  let fires :=
    match s.pending with
    | some f => if f ≤ t then s.fires ++ [f] else s.fires
    | none => s.fires
  { pending := some (t + delay), fires := fires }

/-- Run the debounced function over a list of call times (in time order). -/
def debounceRun (delay : Nat) (events : List Nat) : DebounceState :=
  events.foldl (debounceStep delay) { pending := none, fires := [] }

/-- All firing times produced by a burst of calls, including the timer still
pending after the last call (which fires once its delay elapses). -/
def debounceFires (delay : Nat) (events : List Nat) : List Nat :=
  let s := debounceRun delay events
  s.fires ++ (match s.pending with | some f => [f] | none => [])

/-- The burst hypothesis of C9: call times are ordered and each consecutive
pair is separated by less than the debounce delay. -/
def burstWithin (delay : Nat) : List Nat → Prop
  | a :: b :: rest => a ≤ b ∧ b < a + delay ∧ burstWithin delay (b :: rest)
  | _ => True

/-! ## backend.ts (plugin) : deploy coalescing

The `deploy` closure of `convexLocal` guards with `isDeploying`, records
overlapping requests in `pendingDeploy`, and on completion (the `finally`
block) clears the flag and starts exactly one trailing deploy.  The model
makes the in-flight execution an explicit interval between a `request` that
starts it and a `complete` event; `running` counts live executions of
`backend.deploy()` and `runs` the executions ever started.  The closure's
initial `if (!backend?.port) return` guard is outside the model: the claim
concerns deploys while the backend is running, where the guard passes. -/

/-- Coalescing state: the two flags of the closure plus instrumentation
counting live and total deploy executions. -/
structure DeployCoState where
  isDeploying : Bool
  pendingDeploy : Bool
  running : Nat
  runs : Nat
deriving Repr, DecidableEq

/-- Events of the deploy coordinator: a deploy request (a debounced
file-change trigger or the initial deploy) and the completion of the
in-flight `backend.deploy()` execution. -/
inductive DeployEv
  | request
  | complete
deriving Repr, DecidableEq

/-- One step of the coalescing scheduler, from the `deploy` closure: a
request while idle starts an execution; a request while one is in flight
only sets `pendingDeploy`; completion clears `isDeploying` and, when
`pendingDeploy` is set, clears it and starts exactly one trailing
execution. -/
def deployStep : DeployCoState → DeployEv → DeployCoState
  | s, DeployEv.request =>
    if s.isDeploying then { s with pendingDeploy := true }
    else { isDeploying := true, pendingDeploy := s.pendingDeploy,
           running := s.running + 1, runs := s.runs + 1 }
  | s, DeployEv.complete =>
    if s.running = 0 then s
    else
      let s1 : DeployCoState :=
        { isDeploying := false, pendingDeploy := s.pendingDeploy,
          running := s.running - 1, runs := s.runs }
      if s1.pendingDeploy then
        { isDeploying := true, pendingDeploy := false,
          running := s1.running + 1, runs := s1.runs + 1 }
      else s1

/-- Run the coalescing scheduler over a list of events. -/
def deployRun (s : DeployCoState) (evs : List DeployEv) : DeployCoState :=
  evs.foldl deployStep s

/-- The single-flight invariant: the number of live executions is exactly
the `isDeploying` flag, so it never exceeds one. -/
def deployInv (s : DeployCoState) : Prop :=
  s.running = (if s.isDeploying then 1 else 0)

/-! ## utils.ts : binary cache -/

/-- The cached-binary filename prefix from `findCachedBinary`. -/
def cachedBinaryNameStart : String := "convex-local-backend-precompiled-"

/-- List-level prefix test (used to keep string predicates executable). -/
def isLeadingL : List Char → List Char → Bool
  | [], _ => true
  | _ :: _, [] => false
  | a :: as, b :: bs => a == b && isLeadingL as bs

/-- Whether `p` is a prefix of `s`. -/
def strStartsWith (s p : String) : Bool := isLeadingL p.data s.data

/-- Whether `p` is a suffix of `s`. -/
def strEndsWith (s p : String) : Bool := isLeadingL p.data.reverse s.data.reverse

/-- Whether `needle` occurs inside `hay`. -/
def containsL (needle : List Char) : List Char → Bool
  | [] => isLeadingL needle []
  | h :: t => isLeadingL needle (h :: t) || containsL needle t

/-- Whether `needle` occurs inside `hay` (`String.includes`). -/
def strContainsSub (hay needle : String) : Bool := containsL needle.data hay.data

/-- The filename filter of `findCachedBinary` on a non-Windows platform
(the `.exe` suffix check degenerates to the empty suffix): prefix
`convex-local-backend-precompiled-` and not a `.zip`. -/
def isCachedBinaryName (name : String) : Bool :=
  strStartsWith name cachedBinaryNameStart && !(strEndsWith name ".zip")

/-- Filesystem and clock inputs of the binary provisioner: whether the cache
directory exists, its entries as (name, mtimeMs) pairs, and `Date.now()`.
Times are `Int` to mirror JS millisecond arithmetic. -/
structure BinCacheEnv where
  dirExists : Bool
  files : List (String × Int)
  now : Int

/-- The newest-mtime scan of `findCachedBinary`: fold starting from
`(null, 0)` keeping the strictly larger mtime. -/
def newestBinary (binaryDir : String) (bins : List (String × Int)) : Option String × Int :=
  bins.foldl
    (fun acc f => if acc.2 < f.2 then (some (binaryDir ++ "/" ++ f.1), f.2) else acc)
    (none, 0)

/-- The `findCachedBinary` function of `utils.ts`: the most recently
modified cached binary, provided its age is within the TTL. -/
def findCachedBinary (env : BinCacheEnv) (binaryDir : String) (cacheTtlMs : Int) :
    Option String :=
  if !env.dirExists then none
  else
    let binaries := env.files.filter (fun f => isCachedBinaryName f.1)
    if binaries.isEmpty then none
    else
      let nb := newestBinary binaryDir binaries
      match nb.1 with
      | none => none
      | some p => if env.now - nb.2 < cacheTtlMs then some p else none

/-- A GitHub release from the release index: tag name and assets as
(name, download-url) pairs. -/
structure GHRelease where
  tagName : String
  assets : List (String × String)

/-- Network operations of `downloadConvexBinary`; the trace is the model's
record of network access. -/
inductive NetEv
  | fetchReleases
  | downloadAsset (url : String)
deriving Repr, DecidableEq

/-- The `findAsset` function of `utils.ts`: first release (most recent
first) whose asset name contains the platform target. -/
def findAsset (releases : List GHRelease) (target : String) :
    Option (String × String × String) :=
  match releases with
  | [] => none
  | r :: rest =>
    match r.assets.find? (fun a => strContainsSub a.1 target) with
    | some a => some (a.1, a.2, r.tagName)
    | none => findAsset rest target

/-- The cache-miss path of `downloadConvexBinary`: query the release index
(network), locate the matching asset, reuse an already-extracted versioned
binary (touching its mtime) or download and extract the archive. -/
def downloadFresh (env : BinCacheEnv) (releases : List GHRelease) (target binaryDir : String) :
    Except String String × List NetEv :=
  match findAsset releases target with
  | none =>
    (Except.error ("No Convex binary asset matches '" ++ target ++ "'"), [NetEv.fetchReleases])
  | some (assetName, url, version) =>
    let binaryName := "convex-local-backend-" ++ version
    let binaryPath := binaryDir ++ "/" ++ binaryName
    if env.files.any (fun f => f.1 = binaryName) then
      (Except.ok binaryPath, [NetEv.fetchReleases])
    else
      let _ := assetName
      (Except.ok binaryPath, [NetEv.fetchReleases, NetEv.downloadAsset url])

/-- The `downloadConvexBinary` function of `utils.ts` (non-Windows): with a
positive TTL a fresh cached binary is returned before any network access;
otherwise the release index is queried. -/
def downloadConvexBinary (env : BinCacheEnv) (releases : List GHRelease)
    (target binaryDir : String) (cacheTtlMs : Int) : Except String String × List NetEv :=
  if 0 < cacheTtlMs then
    match findCachedBinary env binaryDir cacheTtlMs with
    | some cached => (Except.ok cached, [])
    | none => downloadFresh env releases target binaryDir
  else downloadFresh env releases target binaryDir

/-! ## backend.ts (plugin) : credential selection -/

/-- The persisted credential triple of `keys.json`. -/
structure PersistedKeys where
  instanceName : String
  instanceSecret : String
  adminKey : String
deriving Repr, DecidableEq

/-- The key-selection logic of `startBackendInit`: `existingKeys` is the
parse result of `keys.json` (`loadPersistedKeys`, `none` when the file is
missing or unparsable), the option strings mirror `ConvexLocalOptions`,
and `generated` stands for the `generateKeyPair` result.  Returns the
chosen keys and whether `savePersistedKeys` was called. -/
def loadOrCreateKeys (reset : Bool) (existingKeys : Option PersistedKeys)
    (optName optSecret optAdmin : Option String) (generated : String × String) :
    PersistedKeys × Bool :=
  match existingKeys, reset with
  | some k, false => (k, false)
  | _, _ =>
    if jsTruthyStr optSecret && jsTruthyStr optAdmin then
      ({ instanceName := optName.getD "convex-local",
         instanceSecret := optSecret.getD "",
         adminKey := optAdmin.getD "" }, true)
    else
      ({ instanceName := optName.getD "convex-local",
         instanceSecret := generated.1,
         adminKey := generated.2 }, true)

/-! ## utils.ts : health-check polling

`waitForHttpOk` polls until a 2xx/3xx response or the deadline.  For a
backend that never becomes healthy every fetch fails, so the loop's only
exit is the timeout throw; the model tracks the current time (fetches are
instantaneous) and returns the time at which the error is thrown.  The
fuel argument only bounds the recursion; `none` (fuel exhausted) is
unreachable once every backoff step is at least one millisecond. -/

/-- The polling loop of `waitForHttpOk` under never-healthy responses:
each iteration checks the deadline and sleeps `min (backoff attempts)
remaining`. -/
def waitLoopGo (backoff : Nat → Nat) (deadline : Nat) :
    Nat → Nat → Nat → Option Nat
  | 0, _, _ => none
  | fuel + 1, now, attempts =>
    if deadline ≤ now then some now
    else
      let delay := min (backoff attempts) (deadline - now)
      waitLoopGo backoff deadline fuel (now + delay) (attempts + 1)

/-- Time (from the start of polling) at which `waitForHttpOk` raises its
timeout error when the endpoint never returns 2xx/3xx. -/
def waitForHttpOkTimeoutAt (backoff : Nat → Nat) (timeoutMs : Nat) : Option Nat :=
  waitLoopGo backoff timeoutMs (timeoutMs + 1) 0 0

/-- The exponential backoff of `waitForHttpOk`, `200 * 1.5 ^ attempts`,
in exact integer arithmetic. -/
def convexBackoff (attempts : Nat) : Nat := 200 * 3 ^ attempts / 2 ^ attempts

/-- The health-check deadline `ConvexBackend.healthCheck` passes to
`waitForHttpOk` (10 seconds). -/
def healthCheckTimeoutMs : Nat := 10000

/-! ## backend.ts : stop -/

/-- Externally visible actions of `ConvexBackend.stop`. -/
inductive StopEffect
  | signalPid (pid : Nat)
  | logWarn
  | removeDir (dir : String)
deriving Repr, DecidableEq

/-- The `ConvexBackend.stop` method: it returns immediately when no process
handle or pid was recorded; otherwise it sends SIGTERM (a failure is
logged, not fatal) and, when `cleanup` is set, recursively removes the
backend directory.  `processPid` is `none` when `this.process` is unset or
its `pid` is `undefined`; `signalSucceeds` models whether `process.kill`
throws. -/
def convexBackendStop (processPid : Option Nat) (signalSucceeds : Bool)
    (backendDir : String) (cleanup : Bool) : List StopEffect :=
  match processPid with
  | none => []
  | some pid =>
    [StopEffect.signalPid pid] ++
    (if signalSucceeds then [] else [StopEffect.logWarn]) ++
    (if cleanup then [StopEffect.removeDir backendDir] else [])

/-! ## Supporting lemmas -/

theorem beBytes_length (n v : Nat) : (beBytes n v).length = n := by
  induction n generalizing v with
  | zero => rfl
  | succ m ih => simp [beBytes, ih]

theorem sha256_length (msg : List Nat) : (sha256 msg).length = 32 := by
  simp [sha256, beBytes_length]

theorem hmacSha256_length (key msg : List Nat) : (hmacSha256 key msg).length = 32 :=
  sha256_length _

theorem hexEncodeList_length (bs : List Nat) : (hexEncodeList bs).length = 2 * bs.length := by
  induction bs with
  | nil => rfl
  | cons b t ih => simp [hexEncodeList] at ih ⊢; omega

theorem hexDigitVal_hexDigitChar {d : Nat} (h : d < 16) :
    hexDigitVal (hexDigitChar d) = some d := by
  have : ∀ d : Fin 16, hexDigitVal (hexDigitChar d.1) = some d.1 := by decide
  exact this ⟨d, h⟩

theorem hexDecodeList_hexEncodeList (bs : List Nat) (h : ∀ b ∈ bs, b < 256) :
    hexDecodeList (hexEncodeList bs) = bs := by
  induction bs with
  | nil => rfl
  | cons b t ih =>
    have hb : b < 256 := h b (List.mem_cons_self b t)
    have hhi : b / 16 < 16 := by omega
    have hlo : b % 16 < 16 := Nat.mod_lt _ (by omega)
    have ht := ih (fun x hx => h x (List.mem_cons_of_mem b hx))
    simp only [hexEncodeList, List.foldr]
    show hexDecodeList (hexDigitChar (b / 16) :: hexDigitChar (b % 16) :: hexEncodeList t) = b :: t
    simp only [hexDecodeList, hexDigitVal_hexDigitChar hhi, hexDigitVal_hexDigitChar hlo]
    rw [show 16 * (b / 16) + b % 16 = b from by omega]
    exact congrArg (b :: ·) ht

theorem hexDecode_hexEncode (bs : List Nat) (h : ∀ b ∈ bs, b < 256) :
    hexDecode (hexEncode bs) = bs :=
  hexDecodeList_hexEncodeList bs h

theorem hexEncode_string_length (bs : List Nat) :
    (hexEncode bs).length = 2 * bs.length := by
  show (hexEncodeList bs).length = 2 * bs.length
  exact hexEncodeList_length bs

theorem kbkdfCtrHmac_eq_spec (secret : List Nat) (info : String) (n : Nat) :
    kbkdfCtrHmac secret info n = specCtrHmacKdf secret info n := rfl

theorem kbkdfCtrHmac_16 (secret : List Nat) (info : String) :
    kbkdfCtrHmac secret info 16 =
      (hmacSha256 secret (beBytes 4 1 ++ strBytes info)).take 16 := by
  simp [kbkdfCtrHmac, show List.range 1 = [0] from rfl]

theorem kbkdfCtrHmac_16_length (secret : List Nat) (info : String) :
    (kbkdfCtrHmac secret info 16).length = 16 := by
  rw [kbkdfCtrHmac_16]
  simp [hmacSha256_length]

/-- Shared success path of `generateAdminKey` for a 32-byte secret, used by
both the explicit-length-guard claim and the generated-credentials claim. -/
theorem generateAdminKey_ok (encrypt : AeadEncrypt) (nonce : List Nat)
    (issuedS memberId : Nat) (ro : Bool) (secretHex name : String)
    (h : (hexDecode secretHex).length = 32) :
    generateAdminKey encrypt nonce issuedS secretHex name memberId ro =
      (Except.ok (name ++ "|" ++ hexEncode ([adminKeyVersion] ++ nonce ++
        encrypt (kbkdfCtrHmac (hexDecode secretHex) adminKeyPurpose 16) nonce
          [adminKeyVersion] (encodeAdminKeyProto issuedS memberId ro))),
       [AdminGenEv.derivedKey, AdminGenEv.encrypted]) := by
  simp [generateAdminKey, h]

theorem beBytes_mem_lt (n v : Nat) : ∀ b ∈ beBytes n v, b < 256 := by
  induction n generalizing v with
  | zero => intro b hb; cases hb
  | succ m ih =>
    intro b hb
    rcases List.mem_append.mp hb with h | h
    · exact ih (v / 256) b h
    · rcases List.mem_singleton.mp h with rfl
      exact Nat.mod_lt _ (by omega)

theorem sha256_mem_lt (msg : List Nat) : ∀ b ∈ sha256 msg, b < 256 := by
  intro b hb
  simp only [sha256, List.mem_append] at hb
  rcases hb with ((((((h | h) | h) | h) | h) | h) | h) | h <;> exact beBytes_mem_lt _ _ b h

theorem hexEncodeList_mem_isHex (bs : List Nat) (hbs : ∀ b ∈ bs, b < 256) :
    ∀ c ∈ hexEncodeList bs, (hexDigitVal c).isSome = true := by
  induction bs with
  | nil => intro c hc; cases hc
  | cons b t ih =>
    intro c hc
    have hb : b < 256 := hbs b (List.mem_cons_self b t)
    have hcases : c = hexDigitChar (b / 16) ∨ c = hexDigitChar (b % 16) ∨
        c ∈ hexEncodeList t := by
      simpa [hexEncodeList] using hc
    rcases hcases with rfl | rfl | hmem
    · rw [hexDigitVal_hexDigitChar (by omega)]; rfl
    · rw [hexDigitVal_hexDigitChar (Nat.mod_lt _ (by omega))]; rfl
    · exact ih (fun x hx => hbs x (List.mem_cons_of_mem b hx)) c hmem

theorem stateIdHash_length (b p : String) (s : Option String) :
    (stateIdHash b p s).length = 16 := by
  show (List.take 16 (hexEncodeList (sha256 _))).length = 16
  rw [List.length_take, hexEncodeList_length, sha256_length]
  decide

theorem stateIdHash_isHex (b p : String) (s : Option String) :
    ∀ c ∈ (stateIdHash b p s).data, (hexDigitVal c).isSome = true := by
  intro c hc
  have hmem : c ∈ hexEncodeList (sha256 (strBytes (stateIdInput b p s))) :=
    List.mem_of_mem_take hc
  exact hexEncodeList_mem_isHex _ (sha256_mem_lt _) c hmem

theorem computeStateId_none (b p : String) :
    computeStateId b p none = sanitizeStateId b ++ "-" ++ stateIdHash b p none := by
  simp [computeStateId, jsTruthyStr]

theorem deployStep_request_inflight (p : Bool) (r k : Nat) :
    deployStep ⟨true, p, r, k⟩ DeployEv.request = ⟨true, true, r, k⟩ := by
  simp [deployStep]

theorem deployRun_requests_inflight (n : Nat) (r k : Nat) :
    deployRun ⟨true, true, r, k⟩ (List.replicate n DeployEv.request) = ⟨true, true, r, k⟩ := by
  induction n with
  | zero => rfl
  | succ m ih =>
    rw [List.replicate_succ]
    show deployRun (deployStep ⟨true, true, r, k⟩ DeployEv.request)
      (List.replicate m DeployEv.request) = _
    rw [deployStep_request_inflight]
    exact ih

theorem deployInv_step (s : DeployCoState) (e : DeployEv) (h : deployInv s) :
    deployInv (deployStep s e) := by
  obtain ⟨d, p, r, k⟩ := s
  cases d <;> cases e <;> cases p <;>
    simp_all [deployInv, deployStep]

theorem deployInv_run (s : DeployCoState) (evs : List DeployEv) (h : deployInv s) :
    deployInv (deployRun s evs) := by
  induction evs generalizing s with
  | nil => exact h
  | cons e t ih => exact ih _ (deployInv_step s e h)

theorem newestBinary_foldl_spec (dir : String) (bins : List (String × Int)) :
    ∀ acc : Option String × Int,
      acc.2 ≤ (bins.foldl
          (fun acc f => if acc.2 < f.2 then (some (dir ++ "/" ++ f.1), f.2) else acc) acc).2 ∧
      (∀ f ∈ bins, f.2 ≤ (bins.foldl
          (fun acc f => if acc.2 < f.2 then (some (dir ++ "/" ++ f.1), f.2) else acc) acc).2) ∧
      ((bins.foldl
          (fun acc f => if acc.2 < f.2 then (some (dir ++ "/" ++ f.1), f.2) else acc) acc) = acc ∨
        ∃ f ∈ bins, (bins.foldl
          (fun acc f => if acc.2 < f.2 then (some (dir ++ "/" ++ f.1), f.2) else acc) acc) =
            (some (dir ++ "/" ++ f.1), f.2)) := by
  induction bins with
  | nil => intro acc; exact ⟨le_refl _, by simp, Or.inl rfl⟩
  | cons g t ih =>
    intro acc
    simp only [List.foldl_cons]
    set acc' := if acc.2 < g.2 then (some (dir ++ "/" ++ g.1), g.2) else acc with hacc'
    obtain ⟨h1, h2, h3⟩ := ih acc'
    have hle : acc.2 ≤ acc'.2 := by
      rw [hacc']; split
      · next hc => exact le_of_lt hc
      · exact le_refl _
    have hg : g.2 ≤ acc'.2 := by
      rw [hacc']; split
      · exact le_refl _
      · next hc => omega
    refine ⟨le_trans hle h1, ?_, ?_⟩
    · intro f hf
      rcases List.mem_cons.mp hf with hfg | hft
      · exact hfg ▸ le_trans hg h1
      · exact h2 f hft
    · rcases h3 with heq | ⟨f, hf, heq⟩
      · rw [heq, hacc']
        split
        · exact Or.inr ⟨g, List.mem_cons_self g t, rfl⟩
        · exact Or.inl rfl
      · exact Or.inr ⟨f, List.mem_cons_of_mem g hf, heq⟩

theorem waitLoopGo_deadline (backoff : Nat → Nat) (hb : ∀ k, 1 ≤ backoff k)
    (deadline : Nat) :
    ∀ fuel now attempts, now ≤ deadline → deadline - now < fuel →
      waitLoopGo backoff deadline fuel now attempts = some deadline := by
  intro fuel
  induction fuel with
  | zero => intro now attempts _ hf; omega
  | succ m ih =>
    intro now attempts hle hf
    by_cases hd : deadline ≤ now
    · have : now = deadline := le_antisymm hle hd
      simp [waitLoopGo, hd, this]
    · have hlt : now < deadline := lt_of_le_of_ne hle (fun h => hd (le_of_eq h.symm))
      simp only [waitLoopGo, if_neg hd]
      have hδ1 : 1 ≤ min (backoff attempts) (deadline - now) :=
        le_min (hb attempts) (by omega)
      have hδ2 : min (backoff attempts) (deadline - now) ≤ deadline - now :=
        min_le_right _ _
      exact ih (now + min (backoff attempts) (deadline - now)) (attempts + 1)
        (by omega) (by omega)

theorem convexBackoff_pos (k : Nat) : 1 ≤ convexBackoff k := by
  have h2 : (0 : Nat) < 2 ^ k := Nat.pos_pow_of_pos k (by omega)
  have hle : 2 ^ k ≤ 200 * 3 ^ k := by
    calc 2 ^ k ≤ 3 ^ k := Nat.pow_le_pow_left (by omega) k
    _ ≤ 200 * 3 ^ k := Nat.le_mul_of_pos_left _ (by omega)
  exact (Nat.one_le_div_iff h2).mpr hle

theorem debounceRun_foldl_burst (delay : Nat) :
    ∀ (rest : List Nat) (a : Nat) (F : List Nat), burstWithin delay (a :: rest) →
      rest.foldl (debounceStep delay) ⟨some (a + delay), F⟩ =
        ⟨some ((a :: rest).getLastD 0 + delay), F⟩ := by
  intro rest
  induction rest with
  | nil => intro a F _; rfl
  | cons b t ih =>
    intro a F hb
    obtain ⟨hab, hlt, hrest⟩ := hb
    simp only [List.foldl_cons]
    have hstep : debounceStep delay ⟨some (a + delay), F⟩ b = ⟨some (b + delay), F⟩ := by
      simp only [debounceStep]
      rw [if_neg (by omega)]
    rw [hstep]
    rw [ih b F hrest]
    rfl

/-! ## Claim theorems -/

/-- C1: for every 32-byte secret, the 16-byte symmetric key of admin-token
generation equals the counter-mode HMAC-SHA-256 derivation — for each
1-indexed block `i`, `HMAC-SHA256(secret, BE32(i) || "admin key")`, blocks
concatenated and truncated to 16 bytes, no length or separator fields in
the HMAC input — and the returned token is
`instanceName ++ "|" ++ hex(version_byte || nonce || ciphertext_with_tag)`
with version byte 1. -/
theorem claim_C1_admin_token (encrypt : AeadEncrypt) (nonce : List Nat)
    (issuedS : Nat) (secretHex name : String) (memberId : Nat) (ro : Bool)
    (h : (hexDecode secretHex).length = 32) :
    (∀ (s : List Nat) (info : String) (n : Nat),
      kbkdfCtrHmac s info n = specCtrHmacKdf s info n) ∧
    kbkdfCtrHmac (hexDecode secretHex) adminKeyPurpose 16 =
      (hmacSha256 (hexDecode secretHex) (beBytes 4 1 ++ strBytes "admin key")).take 16 ∧
    (kbkdfCtrHmac (hexDecode secretHex) adminKeyPurpose 16).length = 16 ∧
    adminKeyPurpose = "admin key" ∧
    adminKeyVersion = 1 ∧
    (generateAdminKey encrypt nonce issuedS secretHex name memberId ro).1 =
      Except.ok (name ++ "|" ++ hexEncode ([1] ++ nonce ++
        encrypt (kbkdfCtrHmac (hexDecode secretHex) adminKeyPurpose 16) nonce [1]
          (encodeAdminKeyProto issuedS memberId ro))) := by
  refine ⟨kbkdfCtrHmac_eq_spec, kbkdfCtrHmac_16 _ _, kbkdfCtrHmac_16_length _ _, rfl, rfl, ?_⟩
  rw [generateAdminKey_ok encrypt nonce issuedS memberId ro secretHex name h]
  rfl

/-- Witness for C1 at a concrete all-zero 32-byte secret. -/
theorem claim_C1_admin_token_witness :
    (hexDecode "0000000000000000000000000000000000000000000000000000000000000000").length
      = 32 ∧
    (generateAdminKey (fun _ _ _ p => p) [0, 1, 2, 3, 4, 5, 6, 7, 8, 9, 10, 11] 1700000000
      "0000000000000000000000000000000000000000000000000000000000000000"
      "convex-local" 0 false).1 =
      Except.ok ("convex-local" ++ "|" ++ hexEncode ([1] ++
        [0, 1, 2, 3, 4, 5, 6, 7, 8, 9, 10, 11] ++
        (fun (_ _ _ p : List Nat) => p)
          (kbkdfCtrHmac
            (hexDecode
              "0000000000000000000000000000000000000000000000000000000000000000")
            adminKeyPurpose 16)
          [0, 1, 2, 3, 4, 5, 6, 7, 8, 9, 10, 11] [1]
          (encodeAdminKeyProto 1700000000 0 false))) :=
  ⟨by decide,
   (claim_C1_admin_token (fun _ _ _ p => p) [0, 1, 2, 3, 4, 5, 6, 7, 8, 9, 10, 11]
      1700000000
      "0000000000000000000000000000000000000000000000000000000000000000"
      "convex-local" 0 false (by decide)).2.2.2.2.2⟩

/-- C3: with one deploy in flight and `n ≥ 2` further requests arriving
before it completes, the requests only set the pending flag (no new
execution starts); the completion clears the flag and starts exactly one
trailing deploy (total executions go from 1 to 2, not 1 + n); and the
single-flight invariant — never two executions live at once — is preserved
by every event sequence. -/
theorem claim_C3_deploy_single_flight (n : Nat) (hn : 2 ≤ n) :
    deployRun ⟨true, false, 1, 1⟩ (List.replicate n DeployEv.request) = ⟨true, true, 1, 1⟩ ∧
    deployStep (deployRun ⟨true, false, 1, 1⟩ (List.replicate n DeployEv.request))
      DeployEv.complete = ⟨true, false, 1, 2⟩ ∧
    deployStep (deployStep (deployRun ⟨true, false, 1, 1⟩
      (List.replicate n DeployEv.request)) DeployEv.complete) DeployEv.complete =
      ⟨false, false, 0, 2⟩ ∧
    (∀ (s : DeployCoState) (evs : List DeployEv),
      deployInv s → deployInv (deployRun s evs)) := by
  obtain ⟨m, rfl⟩ : ∃ m, n = m + 1 := ⟨n - 1, by omega⟩
  have h1 : deployRun ⟨true, false, 1, 1⟩ (List.replicate (m + 1) DeployEv.request) =
      ⟨true, true, 1, 1⟩ := by
    rw [List.replicate_succ]
    show deployRun (deployStep ⟨true, false, 1, 1⟩ DeployEv.request)
      (List.replicate m DeployEv.request) = _
    rw [deployStep_request_inflight]
    exact deployRun_requests_inflight m 1 1
  refine ⟨h1, ?_, ?_, deployInv_run⟩
  · rw [h1]; rfl
  · rw [h1]; rfl

/-- Witness for C3 at a burst of exactly two extra requests. -/
theorem claim_C3_deploy_single_flight_witness :
    2 ≤ 2 ∧
    deployRun ⟨true, false, 1, 1⟩ (List.replicate 2 DeployEv.request) = ⟨true, true, 1, 1⟩ ∧
    deployStep (deployRun ⟨true, false, 1, 1⟩ (List.replicate 2 DeployEv.request))
      DeployEv.complete = ⟨true, false, 1, 2⟩ ∧
    deployStep (deployStep (deployRun ⟨true, false, 1, 1⟩
      (List.replicate 2 DeployEv.request)) DeployEv.complete) DeployEv.complete =
      ⟨false, false, 0, 2⟩ :=
  ⟨by decide, (claim_C3_deploy_single_flight 2 (by decide)).1,
   (claim_C3_deploy_single_flight 2 (by decide)).2.1,
   (claim_C3_deploy_single_flight 2 (by decide)).2.2.1⟩

/-- C5: when reset is not requested and `keys.json` parsed, the persisted
triple is returned as-is and nothing is re-saved; otherwise explicitly
provided secret and admin token are persisted and returned exactly;
otherwise the generated pair is persisted and returned. -/
theorem claim_C5_credential_precedence (reset : Bool) (existing : Option PersistedKeys)
    (optName optSecret optAdmin : Option String) (gen : String × String) :
    (∀ k : PersistedKeys, reset = false → existing = some k →
      loadOrCreateKeys reset existing optName optSecret optAdmin gen = (k, false)) ∧
    (∀ s a : String, (reset = true ∨ existing = none) →
      optSecret = some s → s ≠ "" → optAdmin = some a → a ≠ "" →
      loadOrCreateKeys reset existing optName optSecret optAdmin gen =
        ({ instanceName := optName.getD "convex-local",
           instanceSecret := s, adminKey := a }, true)) ∧
    ((reset = true ∨ existing = none) →
      (jsTruthyStr optSecret && jsTruthyStr optAdmin) = false →
      loadOrCreateKeys reset existing optName optSecret optAdmin gen =
        ({ instanceName := optName.getD "convex-local",
           instanceSecret := gen.1, adminKey := gen.2 }, true)) := by
  refine ⟨?_, ?_, ?_⟩
  · rintro k rfl rfl
    rfl
  · rintro s a hcase rfl hs rfl ha
    have htr : (jsTruthyStr (some s) && jsTruthyStr (some a)) = true := by
      simp [jsTruthyStr, hs, ha]
    rcases hcase with rfl | rfl
    · cases existing <;> simp [loadOrCreateKeys, htr, jsTruthyStr, hs, ha]
    · simp [loadOrCreateKeys, htr, jsTruthyStr, hs, ha]
  · intro hcase hfalse
    rcases hcase with rfl | rfl
    · cases existing <;> simp [loadOrCreateKeys, hfalse]
    · simp [loadOrCreateKeys, hfalse]

/-- Witness for C5 exercising all three branches at concrete inputs. -/
theorem claim_C5_credential_precedence_witness :
    loadOrCreateKeys false (some ⟨"n", "s", "a"⟩) none none none ("gs", "ga") =
      (⟨"n", "s", "a"⟩, false) ∧
    loadOrCreateKeys false none (some "my-app") (some "sec") (some "adm") ("gs", "ga") =
      (⟨"my-app", "sec", "adm"⟩, true) ∧
    loadOrCreateKeys false none none none none ("gs", "ga") =
      (⟨"convex-local", "gs", "ga"⟩, true) :=
  ⟨(claim_C5_credential_precedence false (some ⟨"n", "s", "a"⟩) none none none
      ("gs", "ga")).1 ⟨"n", "s", "a"⟩ rfl rfl,
   (claim_C5_credential_precedence false none (some "my-app") (some "sec") (some "adm")
      ("gs", "ga")).2.1 "sec" "adm" (Or.inr rfl) rfl (by decide) rfl (by decide),
   (claim_C5_credential_precedence false none none none none
      ("gs", "ga")).2.2 (Or.inr rfl) (by decide)⟩

/-- C6: when the health endpoint never returns 2xx/3xx, the polling loop of
`waitForHttpOk` raises its timeout error exactly at the configured
deadline (each sleep is capped by the remaining time, so the failure is
never later than the deadline plus one backoff granule; with
instantaneous probes it lands exactly on the deadline), for every positive
backoff schedule and in particular for the code's `200 * 1.5^attempts`
schedule at the 10-second health-check deadline. -/
theorem claim_C6_health_deadline (backoff : Nat → Nat) (timeout : Nat)
    (hb : ∀ k, 1 ≤ backoff k) :
    waitForHttpOkTimeoutAt backoff timeout = some timeout ∧
    waitForHttpOkTimeoutAt convexBackoff healthCheckTimeoutMs =
      some healthCheckTimeoutMs := by
  constructor
  · exact waitLoopGo_deadline backoff hb timeout (timeout + 1) 0 0 (by omega) (by omega)
  · exact waitLoopGo_deadline convexBackoff convexBackoff_pos healthCheckTimeoutMs
      (healthCheckTimeoutMs + 1) 0 0 (by omega) (by omega)

/-- Witness for C6 at a constant 200 ms backoff and the code's schedule. -/
theorem claim_C6_health_deadline_witness :
    waitForHttpOkTimeoutAt (fun _ => 200) 10000 = some 10000 ∧
    waitForHttpOkTimeoutAt convexBackoff healthCheckTimeoutMs =
      some healthCheckTimeoutMs :=
  claim_C6_health_deadline (fun _ => 200) 10000 (fun _ => by show (1 : Nat) ≤ 200; decide)

/-- C7 counterexample: with no recorded process handle or pid,
`stop(purge := true)` returns before the cleanup branch, so the backend
directory is not removed — the claim's "including when no process handle
or pid was ever recorded" fails. -/
theorem claim_C7_stop_counterexample :
    convexBackendStop none true "/state/dir" true = [] ∧
    StopEffect.removeDir "/state/dir" ∉ convexBackendStop none true "/state/dir" true := by
  constructor
  · rfl
  · intro h
    simp [convexBackendStop] at h

/-- C7 (amended): when a pid was recorded, `stop(purge := true)` signals it
and removes the backend directory whether or not the signal succeeds (a
failure only adds a logged warning); when no process handle or pid was
recorded, `stop` returns immediately and performs no signal and no
removal. -/
theorem claim_C7_stop_purge (pid : Nat) (sig : Bool) (dir : String) (purge : Bool) :
    convexBackendStop (some pid) sig dir true =
      [StopEffect.signalPid pid] ++ (if sig then [] else [StopEffect.logWarn]) ++
        [StopEffect.removeDir dir] ∧
    StopEffect.removeDir dir ∈ convexBackendStop (some pid) sig dir true ∧
    StopEffect.signalPid pid ∈ convexBackendStop (some pid) sig dir purge ∧
    convexBackendStop none sig dir purge = [] := by
  refine ⟨rfl, ?_, ?_, rfl⟩
  · cases sig <;> simp [convexBackendStop]
  · cases sig <;> simp [convexBackendStop]

/-- Witness for the amended C7 at a concrete pid, failing signal and purge
request: the directory removal still happens; with no pid, nothing does. -/
theorem claim_C7_stop_purge_witness :
    StopEffect.removeDir "/state/dir" ∈ convexBackendStop (some 42) false "/state/dir" true ∧
    convexBackendStop none false "/state/dir" true = [] :=
  ⟨(claim_C7_stop_purge 42 false "/state/dir" true).2.1,
   (claim_C7_stop_purge 42 false "/state/dir" true).2.2.2⟩

/-- C8: a caller-supplied secret not decoding to exactly 32 bytes makes
admin-token generation fail with the invalid-secret-length error with an
empty operation trace (so before any key derivation or encryption), and a
secret decoding to exactly 32 bytes never hits this error. -/
theorem claim_C8_secret_length_guard (encrypt : AeadEncrypt) (nonce : List Nat)
    (issuedS memberId : Nat) (ro : Bool) (secretHex name : String) :
    ((hexDecode secretHex).length ≠ 32 →
      generateAdminKey encrypt nonce issuedS secretHex name memberId ro =
        (Except.error ("Instance secret must be 32 bytes (64 hex chars), got " ++
          toString (hexDecode secretHex).length ++ " bytes"), [])) ∧
    ((hexDecode secretHex).length = 32 →
      ∃ tok, generateAdminKey encrypt nonce issuedS secretHex name memberId ro =
        (Except.ok tok, [AdminGenEv.derivedKey, AdminGenEv.encrypted])) := by
  constructor
  · intro h
    simp [generateAdminKey, h]
  · intro h
    exact ⟨_, generateAdminKey_ok encrypt nonce issuedS memberId ro secretHex name h⟩

/-- Witness for C8: a 1-byte secret is rejected with no derivation or
encryption, and a 32-byte secret is accepted. -/
theorem claim_C8_secret_length_guard_witness :
    (hexDecode "00").length ≠ 32 ∧
    generateAdminKey (fun _ _ _ p => p) [] 0 "00" "n" 0 false =
      (Except.error ("Instance secret must be 32 bytes (64 hex chars), got " ++
        toString (hexDecode "00").length ++ " bytes"), []) ∧
    (hexDecode
      "0000000000000000000000000000000000000000000000000000000000000000").length = 32 ∧
    ∃ tok, generateAdminKey (fun _ _ _ p => p) [] 0
      "0000000000000000000000000000000000000000000000000000000000000000" "n" 0 false =
        (Except.ok tok, [AdminGenEv.derivedKey, AdminGenEv.encrypted]) :=
  ⟨by decide,
   (claim_C8_secret_length_guard (fun _ _ _ p => p) [] 0 0 false "00" "n").1 (by decide),
   by decide,
   (claim_C8_secret_length_guard (fun _ _ _ p => p) [] 0 0 false
      "0000000000000000000000000000000000000000000000000000000000000000" "n").2
     (by decide)⟩

/-- C9: a burst of calls each closer than the debounce delay to its
predecessor produces exactly one firing, one delay after the last call;
every timer scheduled earlier in the burst is cancelled before it is due. -/
theorem claim_C9_debounce (delay : Nat) (e : Nat) (rest : List Nat)
    (hb : burstWithin delay (e :: rest)) :
    debounceFires delay (e :: rest) = [(e :: rest).getLastD 0 + delay] ∧
    (debounceFires delay (e :: rest)).length = 1 := by
  have h1 : debounceRun delay (e :: rest) =
      ⟨some ((e :: rest).getLastD 0 + delay), []⟩ := by
    show (e :: rest).foldl (debounceStep delay) ⟨none, []⟩ = _
    rw [List.foldl_cons]
    exact debounceRun_foldl_burst delay rest e [] hb
  refine ⟨?_, ?_⟩
  · simp [debounceFires, h1]
  · simp [debounceFires, h1]

/-- Witness for C9 at a three-event burst with the default 500 ms delay. -/
theorem claim_C9_debounce_witness :
    burstWithin 500 [0, 100, 200] ∧
    debounceFires 500 [0, 100, 200] = [700] ∧
    (debounceFires 500 [0, 100, 200]).length = 1 := by
  have hb : burstWithin 500 [0, 100, 200] := by
    simp [burstWithin]
  have h := claim_C9_debounce 500 0 [100, 200] hb
  exact ⟨hb, by simpa using h.1, by simpa using h.2⟩

/-- C10: the secret generated by `generateKeyPair` is a 64-character hex
string that decodes to exactly the 32 random bytes, so the 32-byte length
guard inside `generateAdminKey` never fires on the generated-credentials
path. -/
theorem claim_C10_generated_secret_ok (rb : List Nat) (h32 : rb.length = 32)
    (hbyte : ∀ b ∈ rb, b < 256) (encrypt : AeadEncrypt) (nonce : List Nat)
    (issuedS : Nat) (name : String) :
    (generateInstanceSecret rb).length = 64 ∧
    hexDecode (generateInstanceSecret rb) = rb ∧
    ∃ tok, (generateKeyPair rb encrypt nonce issuedS name).2 =
      (Except.ok tok, [AdminGenEv.derivedKey, AdminGenEv.encrypted]) := by
  have hrt : hexDecode (generateInstanceSecret rb) = rb := hexDecode_hexEncode rb hbyte
  refine ⟨?_, hrt, ?_⟩
  · show (hexEncode rb).length = 64
    rw [hexEncode_string_length, h32]
  · refine ⟨_, generateAdminKey_ok encrypt nonce issuedS 0 false
      (generateInstanceSecret rb) name ?_⟩
    rw [hrt, h32]

/-- Witness for C10 at the all-zero 32-byte random block. -/
theorem claim_C10_generated_secret_ok_witness :
    (List.replicate 32 0).length = 32 ∧
    (generateInstanceSecret (List.replicate 32 0)).length = 64 ∧
    hexDecode (generateInstanceSecret (List.replicate 32 0)) = List.replicate 32 0 ∧
    ∃ tok, (generateKeyPair (List.replicate 32 0) (fun _ _ _ p => p) [] 0 "n").2 =
      (Except.ok tok, [AdminGenEv.derivedKey, AdminGenEv.encrypted]) := by
  have h := claim_C10_generated_secret_ok (List.replicate 32 0) (by decide)
    (by decide) (fun _ _ _ p => p) [] 0 "n"
  exact ⟨by decide, h.1, h.2.1, h.2.2⟩

set_option maxRecDepth 1000000 in
/-- C2: state-identity resolution is a pure function of (branch, path,
suffix); an identity has the shape `sanitizedBranch-<16 hex chars>`; on
branch `feature/x` with path `/repo` and no suffix the identity is
`feature-x-a49193e042573fc3`, resolving again with suffix `a` yields a
different identity, and changing the branch, the path or the suffix alone
changes the 16-hex-character hash (verified at those concrete inputs,
witnessing the spec's "with overwhelming probability" clause). -/
theorem claim_C2_state_identity :
    (∀ (branch projectDir : String) (suffix : Option String),
      computeStateId branch projectDir suffix = computeStateId branch projectDir suffix) ∧
    (∀ branch projectDir : String,
      computeStateId branch projectDir none =
        sanitizeStateId branch ++ "-" ++ stateIdHash branch projectDir none) ∧
    (∀ (branch projectDir : String) (suffix : Option String),
      (stateIdHash branch projectDir suffix).length = 16 ∧
      ∀ c ∈ (stateIdHash branch projectDir suffix).data, (hexDigitVal c).isSome = true) ∧
    computeStateId "feature/x" "/repo" none = "feature-x-a49193e042573fc3" ∧
    computeStateId "feature/x" "/repo" (some "a") ≠
      computeStateId "feature/x" "/repo" none ∧
    stateIdHash "feature/y" "/repo" none ≠ stateIdHash "feature/x" "/repo" none ∧
    stateIdHash "feature/x" "/repo2" none ≠ stateIdHash "feature/x" "/repo" none ∧
    stateIdHash "feature/x" "/repo" (some "a") ≠ stateIdHash "feature/x" "/repo" none :=
  ⟨fun _ _ _ => rfl,
   computeStateId_none,
   fun b p s => ⟨stateIdHash_length b p s, stateIdHash_isHex b p s⟩,
   by decide, by decide, by decide, by decide, by decide⟩

/-- Witness for C2: the formatting and hex-digit conjuncts applied at the
scenario inputs. -/
theorem claim_C2_state_identity_witness :
    computeStateId "feature/x" "/repo" none = "feature-x-a49193e042573fc3" ∧
    (stateIdHash "feature/x" "/repo" none).length = 16 :=
  ⟨claim_C2_state_identity.2.2.2.1,
   (claim_C2_state_identity.2.2.1 "feature/x" "/repo" none).1⟩

/-- C4: with a positive TTL and a cached binary whose modification time is
within the TTL of the current time, `downloadConvexBinary` returns a
cached binary path (the most recently modified one) with an empty network
trace: no release-index query and no download. -/
theorem claim_C4_binary_cache_hit (env : BinCacheEnv) (releases : List GHRelease)
    (target binaryDir : String) (ttl : Int)
    (hdir : env.dirExists = true) (httl : 0 < ttl)
    (hcached : ∃ f ∈ env.files, isCachedBinaryName f.1 = true ∧ 0 < f.2 ∧
      env.now - f.2 < ttl) :
    ∃ name mtime, (name, mtime) ∈ env.files ∧ isCachedBinaryName name = true ∧
      env.now - mtime < ttl ∧
      downloadConvexBinary env releases target binaryDir ttl =
        (Except.ok (binaryDir ++ "/" ++ name), []) := by
  obtain ⟨f, hfmem, hfbin, hfpos, hfttl⟩ := hcached
  have hfbins : f ∈ env.files.filter (fun f => isCachedBinaryName f.1) :=
    List.mem_filter.mpr ⟨hfmem, hfbin⟩
  obtain ⟨hacc, hall, hcases⟩ :=
    newestBinary_foldl_spec binaryDir (env.files.filter (fun f => isCachedBinaryName f.1))
      (none, 0)
  rcases hcases with heq | ⟨g, hgmem, hgeq⟩
  · exfalso
    have hle := hall f hfbins
    rw [heq] at hle
    simp only at hle
    omega
  · have hnb : newestBinary binaryDir (env.files.filter (fun f => isCachedBinaryName f.1)) =
        (some (binaryDir ++ "/" ++ g.1), g.2) := hgeq
    have hfg : f.2 ≤ g.2 := by
      have hle := hall f hfbins
      rw [hgeq] at hle
      exact hle
    have hgttl : env.now - g.2 < ttl := by omega
    obtain ⟨hgfiles, hgbin⟩ := List.mem_filter.mp hgmem
    refine ⟨g.1, g.2, hgfiles, hgbin, hgttl, ?_⟩
    have hne : (env.files.filter (fun f => isCachedBinaryName f.1)).isEmpty = false := by
      cases hb : env.files.filter (fun f => isCachedBinaryName f.1) with
      | nil => rw [hb] at hfbins; cases hfbins
      | cons x xs => rfl
    have hfind : findCachedBinary env binaryDir ttl = some (binaryDir ++ "/" ++ g.1) := by
      unfold findCachedBinary
      rw [hdir]
      simp only [Bool.not_true, Bool.false_eq_true, if_false, hne, hnb, hgttl, if_true]
    unfold downloadConvexBinary
    rw [if_pos httl, hfind]

/-- Witness for C4: a binary cached one hour ago under a seven-day TTL is
returned with zero network calls. -/
theorem claim_C4_binary_cache_hit_witness :
    (0 : Int) < 604800000 ∧
    (∃ name mtime,
      (name, mtime) ∈
        (⟨true, [("convex-local-backend-precompiled-2024-12-17", 1000)],
          3601000⟩ : BinCacheEnv).files ∧
      isCachedBinaryName name = true ∧
      (⟨true, [("convex-local-backend-precompiled-2024-12-17", 1000)],
        3601000⟩ : BinCacheEnv).now - mtime < 604800000 ∧
      downloadConvexBinary
        (⟨true, [("convex-local-backend-precompiled-2024-12-17", 1000)],
          3601000⟩ : BinCacheEnv) [] "convex-local-backend-x86_64-unknown-linux-gnu"
        "/cache" 604800000 =
        (Except.ok ("/cache" ++ "/" ++ name), [])) :=
  ⟨by decide,
   claim_C4_binary_cache_hit
     (⟨true, [("convex-local-backend-precompiled-2024-12-17", 1000)], 3601000⟩ : BinCacheEnv)
     [] "convex-local-backend-x86_64-unknown-linux-gnu" "/cache" 604800000 rfl (by decide)
     ⟨("convex-local-backend-precompiled-2024-12-17", 1000), by decide, by decide,
      by decide, by decide⟩⟩

end ConvexOrchestrator
